import Mathlib

/-!
Verification of the Antigravity-Manager process lifecycle and account
backup/restore code (src/gui/process_manager.py, src/gui/db_manager.py).

Conventions of the shallow embedding:

* Python strings are modelled by `String`; the Python `str.lower()` of a
  string is modelled on the character list (`pyLower`), because the code
  lowercases names and paths before comparing them.  The Python `in`
  substring test and `str.endswith` are modelled by `listContains` and
  `listEndsWith` on character lists.
* Time is measured in integer ticks, 4 ticks = 1 time-unit (second).
  The poll interval of the wait loop (0.5 s, process_manager.py line 196)
  is 2 ticks, the settle delay of the final check (1 s, line 213) is
  4 ticks.  The timeout parameter of close_antigravity keeps its unit
  (seconds); the wait loop of lines 183-196 polls at ticks 0, 2, 4, ...
  while the elapsed time is below the timeout.  Using integer ticks keeps
  every definition kernel-computable; placing process death times at
  arbitrary ticks expresses every observable liveness pattern.
* Whether and when an OS process stops being alive is part of the `World`
  (`World.dies`, death tick per pid, `none` = never exits): signals are
  recorded in the outcome, the environment decides how processes react,
  and a dead process stays dead (`psutil.Process.is_running` semantics).
* Fallible IO (database opens, file reads) is modelled by explicit
  success flags in the environment records, and the code paths that
  swallow exceptions are modelled by the corresponding case splits.
-/

/-- Python `str.lower()` on the character list of a string. -/
def pyLower (s : String) : List Char := s.toList.map Char.toLower

/-- Bool test that `needle` is a prefix of `hay` (helper for the Python
`in` operator on strings). -/
def listStartsWith : List Char → List Char → Bool
  | _, [] => true
  | [], _ :: _ => false
  | a :: as, b :: bs => (a == b) && listStartsWith as bs

/-- Python `needle in hay` substring test on character lists. -/
def listContains : List Char → List Char → Bool
  | [], needle => needle.isEmpty
  | a :: as, needle => listStartsWith (a :: as) needle || listContains as needle

/-- Python `hay.endswith(needle)` on character lists. -/
def listEndsWith (hay needle : List Char) : Bool :=
  listStartsWith hay.reverse needle.reverse

/-- Platform C (Linux) locator predicate, process_manager.py lines 39-43
and 150-154: exact lowercase name, or the path segment "/antigravity/"
inside the lowercased executable path, or that path ending with
"/antigravity".  Both arguments are already lowercased, as in the source
(lines 23-24 and 113-114). -/
def is_antigravity_linux (process_name_lower exe_path : List Char) : Bool :=
  (process_name_lower == "antigravity".toList) ||
  listContains exe_path "/antigravity/".toList ||
  listEndsWith exe_path "/antigravity".toList

/-- An OS process descriptor as enumerated by psutil.process_iter:
pid, name, executable path; `readable = false` models a process whose
info raises NoSuchProcess/AccessDenied and is skipped (lines 48-49,
160-161). -/
structure Proc where
  pid : Nat
  name : String
  exe : String
  readable : Bool
deriving DecidableEq, Repr

/-- The environment of one close_antigravity run on Linux: the process
table at scan time, the pid of the caller (os.getpid), the directory of
sys.executable (line 126), and the death tick of each pid (none = the
process never exits; a process is alive at tick t iff t is before its
death tick, matching psutil is_running, which never reports a dead
process as alive again). -/
structure World where
  procs : List Proc
  ownPid : Nat
  ownDir : String
  dies : Nat → Option Int

/-- Liveness of a process at a tick (psutil Process.is_running). -/
def aliveAt (w : World) (t : Int) (p : Proc) : Bool :=
  match w.dies p.pid with
  | none => true
  | some d => decide (t < d)

/-- The sublist of processes of `l` still alive at tick `t` (the polling
loops of lines 184-190, 205-210 and 214-220). -/
def stillAliveAt (w : World) (t : Int) (l : List Proc) : List Proc :=
  l.filter (fun p => aliveAt w t p)

/-- Bool test that the process dies strictly before `timeout` seconds
(4 * timeout ticks) have elapsed. -/
def diesBefore (w : World) (timeout : Int) (p : Proc) : Bool :=
  match w.dies p.pid with
  | none => false
  | some d => decide (d < 4 * timeout)

/-- Scanning phase of close_antigravity, lines 110-161 (Linux): enumerate
the process table, skip unreadable entries, exclude the own pid
(line 117), exclude processes whose non-empty lowercased executable path
contains the lowercased directory of sys.executable (lines 123-131), and
keep the processes matched by the Linux locator predicate. -/
def scanTargets (w : World) : List Proc :=
  w.procs.filter (fun p =>
    let process_name_lower := pyLower p.name
    let exe_path := pyLower p.exe
    p.readable &&
    (p.pid != w.ownPid) &&
    !(!exe_path.isEmpty && listContains exe_path (pyLower w.ownDir)) &&
    is_antigravity_linux process_name_lower exe_path)

/-- is_process_running, lines 11-50 (Linux): some readable process
matches the locator predicate. -/
def is_process_running (procs : List Proc) : Bool :=
  procs.any (fun p =>
    p.readable && is_antigravity_linux (pyLower p.name) (pyLower p.exe))

/-- Tick of the k-th liveness poll of the wait loop (poll k happens after
k sleeps of 0.5 s, line 196). -/
def pollTime (k : Nat) : Int := 2 * k

/-- Number of wait-loop iterations: poll k runs iff its elapsed time k/2
seconds is below the timeout, i.e. iff 2*k < 4*timeout (line 183). -/
def pollsNeeded (timeout : Int) : Nat := (2 * timeout).toNat

/-- Tick at which the wait loop exits by timeout (after the last sleep). -/
def endTime (timeout : Int) : Int := 2 * (pollsNeeded timeout)

/-- The wait loop of lines 183-196.  `k` is the index of the next poll,
the second argument is the number of remaining iterations, `last` is the
current value of the Python variable still_running (none = not yet
assigned).  Result: `Sum.inl ()` = returned True inside the loop (all
processes exited), `Sum.inr last` = the loop ended by timeout with
still_running holding `last`; `Sum.inr none` is the state in which
reading still_running on line 199 raises NameError. -/
def waitLoopAux (w : World) (targets : List Proc) :
    Nat → Nat → Option (List Proc) → Unit ⊕ Option (List Proc)
  | _, 0, last => Sum.inr last
  | k, n + 1, _ =>
    let still := stillAliveAt w (pollTime k) targets
    if still.isEmpty then Sum.inl ()
    else waitLoopAux w targets (k + 1) n (some still)

/-- Entry point of the wait loop (start_time taken at line 182). -/
def waitLoop (w : World) (targets : List Proc) (timeout : Int) :
    Unit ⊕ Option (List Proc) :=
  waitLoopAux w targets 0 (pollsNeeded timeout) none

/-- Observable outcome of one close_antigravity run: returned boolean,
pids sent SIGTERM (line 174), pids sent SIGKILL (line 208), the
processes named by the final "cannot be terminated" error (line 226),
and whether an exception was caught by the boundary handler of
lines 235-237. -/
structure CloseOutcome where
  result : Bool
  termSignals : List Nat
  killSignals : List Nat
  unkillable : List Proc
  raised : Bool
deriving DecidableEq, Repr

/-- close_antigravity, lines 52-237, on Linux (the platform-specific
graceful phase of lines 72-105 is skipped on Linux, line 107).  Phases:
scan (lines 110-161), immediate success on an empty termination set
(lines 163-165), SIGTERM to every process alive at tick 0 (lines
171-178), the wait loop (lines 183-196), then the force-kill escalation
(lines 198-233): SIGKILL to the members of still_running alive at the
loop-exit tick, a 1 s settle sleep, a final liveness poll of
still_running, success iff it is empty.  A timeout of at most 0 makes
the loop body never run, so reading still_running on line 199 raises
NameError, caught at line 235 (result false, raised true). -/
def close_antigravity (w : World) (timeout : Int) (force_kill : Bool) :
    CloseOutcome :=
  let targets := scanTargets w
  if targets.isEmpty then ⟨true, [], [], [], false⟩
  else
    let termed := (stillAliveAt w 0 targets).map Proc.pid
    match waitLoop w targets timeout with
    | Sum.inl _ => ⟨true, termed, [], [], false⟩
    | Sum.inr none => ⟨false, termed, [], [], true⟩
    | Sum.inr (some still_running) =>
      if still_running.isEmpty then ⟨true, termed, [], [], false⟩
      else if force_kill then
        let killed :=
          (stillAliveAt w (endTime timeout) still_running).map Proc.pid
        let final_check :=
          stillAliveAt w (endTime timeout + 4) still_running
        if final_check.isEmpty then ⟨true, termed, killed, [], false⟩
        else ⟨false, termed, killed, final_check, false⟩
      else ⟨false, termed, [], [], false⟩

/-- One dispatched launch mechanism of start_antigravity (Linux):
the URI open (line 255), Popen on the resolved executable path
(line 279), or the bare PATH command (line 283). -/
inductive LaunchAttempt
  | uri
  | exePopen
  | bareCmd
deriving DecidableEq, Repr

/-- Environment of start_antigravity on Linux: result of open_uri,
whether get_antigravity_executable_path yields an existing path, whether
Popen on that path raises, and whether the bare "antigravity" command
exists on PATH (else Popen raises FileNotFoundError, caught locally at
line 284). -/
structure StartEnv where
  uriOk : Bool
  exeFound : Bool
  popenRaises : Bool
  bareFound : Bool
deriving DecidableEq, Repr

/-- start_antigravity, lines 239-297, on Linux.  Returns the boolean
result and the ordered list of launch mechanisms dispatched.  With
use_uri the URI is tried first (success returns immediately); otherwise
the executable path, then the bare command.  An exception escaping the
try block is caught at line 291: if use_uri was true the call recurses
once with use_uri = false (line 296), otherwise it returns False.  A
missing bare command returns False from inside the try (line 287), so
it never triggers the recursion.  The source recursion has depth
exactly 1 (the retried call runs with use_uri = false and cannot
recurse again), so it is embedded by the local value `noUri`, the
outcome of the call with use_uri = false. -/
def start_antigravity (env : StartEnv) (use_uri : Bool) :
    Bool × List LaunchAttempt :=
  let noUri : Bool × List LaunchAttempt :=
    if env.exeFound then
      if env.popenRaises then (false, [LaunchAttempt.exePopen])
      else (true, [LaunchAttempt.exePopen])
    else if env.bareFound then (true, [LaunchAttempt.bareCmd])
    else (false, [LaunchAttempt.bareCmd])
  if use_uri then
    if env.uriOk then (true, [LaunchAttempt.uri])
    else if env.exeFound then
      if env.popenRaises then
        (noUri.1, LaunchAttempt.uri :: LaunchAttempt.exePopen :: noUri.2)
      else (true, [LaunchAttempt.uri, LaunchAttempt.exePopen])
    else if env.bareFound then (true, [LaunchAttempt.uri, LaunchAttempt.bareCmd])
    else (false, [LaunchAttempt.uri, LaunchAttempt.bareCmd])
  else noUri

/-- db_manager.py lines 11-14: the canonical key list. -/
def KEYS_TO_BACKUP : List String :=
  ["antigravityAuthStatus", "jetskiStateSync.agentManagerInitState"]

/-- Lookup in an association list (a Python dict with string keys whose
insertion order is the list order; keys are unique in every dict the
code builds). -/
def alookup : List (String × String) → String → Option String
  | [], _ => none
  | kv :: rest, k => if kv.1 == k then some kv.2 else alookup rest k

/-- The data_map built by backup_account, db_manager.py lines 54-70: the
value of each canonical key present in the database, in list order, then
the two metadata fields.  The database is modelled as the partial map
realised by the SELECT of line 58. -/
def backup_data_map (db : String → Option String) (email now : String) :
    List (String × String) :=
  (KEYS_TO_BACKUP.filterMap (fun k => (db k).map (fun v => (k, v))))
    ++ [("account_email", email), ("backup_time", now)]

/-- backup_account, db_manager.py lines 35-86: fails (writes nothing)
when the database path is missing or the connection fails (`dbReachable
= false`), otherwise writes the document `backup_data_map`. -/
def backup_account (dbReachable : Bool) (db : String → Option String)
    (email now : String) : Option (List (String × String)) :=
  if dbReachable then some (backup_data_map db email now) else none

/-- INSERT OR REPLACE INTO ItemTable (db_manager.py line 145): replace
the value under an existing key, else append the pair. -/
def upsert (c : List (String × String)) (k v : String) :
    List (String × String) :=
  if c.any (fun kv => kv.1 == k) then
    c.map (fun kv => if kv.1 == k then (k, v) else kv)
  else c ++ [(k, v)]

/-- The restore loop of db_manager.py lines 138-148 over the canonical
keys: keys absent from the backup document are skipped; a failing
INSERT (modelled by `failsOn`) raises, so the commit of line 150 is
never reached and the connection close of line 161 rolls the
transaction back (`none`); otherwise the updated contents result. -/
def restoreKeysGo (failsOn : String → Bool) (bdata : List (String × String)) :
    List (String × String) → List String → Option (List (String × String))
  | c, [] => some c
  | c, k :: ks =>
    match alookup bdata k with
    | none => restoreKeysGo failsOn bdata c ks
    | some v =>
      if failsOn k then none else restoreKeysGo failsOn bdata (upsert c k v) ks

/-- One candidate database file: whether it exists on disk, whether
sqlite3.connect succeeds, which key writes raise an sqlite error, and
its ItemTable contents. -/
structure DbFile where
  present : Bool
  connOk : Bool
  failsOn : String → Bool
  contents : List (String × String)

/-- _restore_single_db, db_manager.py lines 123-161: False when the file
is missing (line 125) or the connection fails (line 131) or a write
raises (lines 154-159, contents rolled back); True with the updated
contents otherwise.  Values of the document are strings (non-string
JSON values were re-serialised at line 143 before this point). -/
def _restore_single_db (f : DbFile) (bdata : List (String × String)) :
    Bool × List (String × String) :=
  if !f.present then (false, f.contents)
  else if !f.connOk then (false, f.contents)
  else
    match restoreKeysGo f.failsOn bdata f.contents KEYS_TO_BACKUP with
    | none => (false, f.contents)
    | some c => (true, c)

/-- Environment of restore_account: existence of the backup file
(line 90), its parse result (lines 94-99, none = json.load raised), and
the candidate databases: for each primary path of
get_antigravity_db_paths the primary DbFile and, when the
backup-suffixed sibling of line 116 exists on disk, its DbFile. -/
structure RestoreEnv where
  fileExists : Bool
  parsed : Option (List (String × String))
  paths : List (DbFile × Option DbFile)

/-- Contribution of one candidate pair to success_count
(db_manager.py lines 110-119). -/
def candidateCount (bdata : List (String × String))
    (pr : DbFile × Option DbFile) : Nat :=
  (if (_restore_single_db pr.1 bdata).1 then 1 else 0) +
  (match pr.2 with
   | none => 0
   | some sib => if (_restore_single_db sib bdata).1 then 1 else 0)

/-- Bool: some database of the candidate pair was successfully updated. -/
def candidateOk (bdata : List (String × String))
    (pr : DbFile × Option DbFile) : Bool :=
  (_restore_single_db pr.1 bdata).1 ||
  (match pr.2 with
   | none => false
   | some sib => (_restore_single_db sib bdata).1)

/-- Final contents of one candidate pair after its restore attempts. -/
def candidateContents (bdata : List (String × String))
    (pr : DbFile × Option DbFile) :
    List (String × String) × Option (List (String × String)) :=
  ((_restore_single_db pr.1 bdata).2,
   pr.2.map (fun sib => (_restore_single_db sib bdata).2))

/-- Untouched contents of one candidate pair. -/
def unchangedPair (pr : DbFile × Option DbFile) :
    List (String × String) × Option (List (String × String)) :=
  (pr.1.contents, pr.2.map DbFile.contents)

/-- Bool: the primary database of the pair exists and is connectable. -/
def reachablePrimary (pr : DbFile × Option DbFile) : Bool :=
  pr.1.present && pr.1.connOk

/-- Bool: the key is absent from the backup document. -/
def absentIn (bdata : List (String × String)) (k : String) : Bool :=
  (alookup bdata k).isNone

/-- restore_account, db_manager.py lines 88-121: False when the backup
file is missing, fails to parse, or no database path is known;
otherwise every candidate database (primary, then existing sibling) is
restored independently and the result is success_count > 0.  The second
component is the final contents of every candidate. -/
def restore_account (env : RestoreEnv) :
    Bool × List (List (String × String) × Option (List (String × String))) :=
  if !env.fileExists then (false, env.paths.map unchangedPair)
  else
    match env.parsed with
    | none => (false, env.paths.map unchangedPair)
    | some bdata =>
      if env.paths.isEmpty then (false, env.paths.map unchangedPair)
      else
        (decide (0 < (env.paths.map (candidateCount bdata)).sum),
         env.paths.map (candidateContents bdata))

/-- A process matching the Linux locator predicate, used by witnesses. -/
def procTarget : Proc := ⟨7, "antigravity", "/usr/bin/antigravity", true⟩

/-- World of the C1 witness: the target process never exits. -/
def wStubborn : World := ⟨[procTarget], 1, "/opt/mgr", fun _ => none⟩

/-- World of the C2 witness: the target process dies at tick 2
(0.5 time-units). -/
def wQuick : World :=
  ⟨[procTarget], 1, "/opt/mgr", fun pid => if pid == 7 then some 2 else none⟩

/-- World of the C2 counterexample: the target process dies at tick 3
(0.75 time-units), between the last poll of a 1-second wait loop
(tick 2) and the timeout (tick 4). -/
def wLate : World :=
  ⟨[procTarget], 1, "/opt/mgr", fun pid => if pid == 7 then some 3 else none⟩

/-- World of the C3 witness. -/
def wScan : World := ⟨[procTarget], 1, "/opt/mgr", fun _ => none⟩

/-- World of the C4 witness: only a non-matching process. -/
def wNoTarget : World := ⟨[⟨3, "bash", "/bin/bash", true⟩], 1, "/opt/mgr", fun _ => none⟩

/-- World of the C9 witness. -/
def wHang : World := ⟨[procTarget], 1, "/opt/mgr", fun _ => none⟩

/-- Environment of the C6 counterexample: URI would succeed, but with
use_uri = false the executable-path fallback fails (no resolved path,
no bare command) and no URI retry happens. -/
def envNoExe : StartEnv := ⟨true, false, false, false⟩

/-- Environment of the C6 witness: URI fails, the resolved executable
exists, Popen raises. -/
def envRaise : StartEnv := ⟨false, true, true, false⟩

/-- A database file that accepts every write. -/
def dbOk : DbFile := ⟨true, true, fun _ => false, [("antigravityAuthStatus", "old")]⟩

/-- Backup document of the C7 witness. -/
def bdataOne : List (String × String) :=
  [("antigravityAuthStatus", "v1"), ("account_email", "a@b.com")]

/-- Environment of the C7 witness. -/
def envRestore : RestoreEnv := ⟨true, some bdataOne, [(dbOk, none)]⟩

/-- Backup document of the C10 witness: metadata only, no canonical key. -/
def bdataMeta : List (String × String) :=
  [("account_email", "a@b.com"), ("backup_time", "t")]

/-- Environment of the C10 witness. -/
def envMetaOnly : RestoreEnv := ⟨true, some bdataMeta, [(dbOk, none)]⟩

theorem listStartsWith_iff (needle hay : List Char) :
    listStartsWith hay needle = true ↔ needle <+: hay := by
  induction needle generalizing hay with
  | nil => simp [listStartsWith]
  | cons b bs ih =>
    cases hay with
    | nil => simp [listStartsWith]
    | cons a as =>
      rw [listStartsWith, Bool.and_eq_true, beq_iff_eq, ih,
        List.cons_prefix_cons]
      constructor
      · rintro ⟨h1, h2⟩
        exact ⟨h1.symm, h2⟩
      · rintro ⟨h1, h2⟩
        exact ⟨h1.symm, h2⟩

theorem listContains_iff (hay needle : List Char) :
    listContains hay needle = true ↔ needle <:+: hay := by
  induction hay with
  | nil => simp [listContains, List.infix_nil, List.isEmpty_iff]
  | cons a as ih =>
    simp [listContains, listStartsWith_iff, ih, List.infix_cons_iff]

theorem listEndsWith_iff (hay needle : List Char) :
    listEndsWith hay needle = true ↔ needle <:+ hay := by
  unfold listEndsWith
  rw [listStartsWith_iff, List.reverse_prefix]

theorem listContains_of_prefix {needle hay : List Char} (h : needle <+: hay) :
    listContains hay needle = true := by
  rcases h with ⟨t, rfl⟩
  exact (listContains_iff _ _).mpr ⟨[], t, rfl⟩

theorem pyLower_eq_nil_iff (s : String) : pyLower s = [] ↔ s = "" := by
  unfold pyLower
  rw [List.map_eq_nil_iff]
  cases s with
  | mk data =>
    constructor
    · intro h
      exact String.ext h
    · intro h
      rw [h]
      rfl

theorem pollsNeeded_correct (timeout : Int) (k : Nat) :
    pollTime k < 4 * timeout ↔ k < pollsNeeded timeout := by
  unfold pollTime pollsNeeded
  omega

theorem endTime_eq (timeout : Int) (h : 0 ≤ timeout) :
    endTime timeout = 4 * timeout := by
  unfold endTime pollsNeeded
  omega

theorem aliveAt_mono (w : World) (p : Proc) {t t' : Int} (h : t ≤ t')
    (ha : aliveAt w t' p = true) : aliveAt w t p = true := by
  unfold aliveAt at ha ⊢
  cases hd : w.dies p.pid with
  | none => rfl
  | some d =>
    rw [hd] at ha
    rw [decide_eq_true_iff] at ha
    rw [decide_eq_true_iff]
    omega

theorem aliveAt_eq_false (w : World) (p : Proc) {d t : Int}
    (hd : w.dies p.pid = some d) (h : d ≤ t) : aliveAt w t p = false := by
  unfold aliveAt
  rw [hd]
  simpa using h

theorem stillAliveAt_idem (w : World) {t' t : Int} (h : t' ≤ t)
    (l : List Proc) :
    stillAliveAt w t (stillAliveAt w t' l) = stillAliveAt w t l := by
  unfold stillAliveAt
  rw [List.filter_filter]
  apply List.filter_congr
  intro p _
  cases hp : aliveAt w t p with
  | true => simp [aliveAt_mono w p h hp]
  | false => simp

theorem mem_of_mem_stillAliveAt {w : World} {t : Int} {l : List Proc}
    {p : Proc} (h : p ∈ stillAliveAt w t l) : p ∈ l :=
  (List.mem_filter.mp h).1

theorem stillAliveAt_eq_nil {w : World} {t : Int} {l : List Proc}
    (h : ∀ p ∈ l, aliveAt w t p = false) : stillAliveAt w t l = [] := by
  unfold stillAliveAt
  rw [List.filter_eq_nil_iff]
  intro p hp
  simp [h p hp]

theorem waitLoopAux_ne_none (w : World) (targets : List Proc) :
    ∀ (n k : Nat) (last : Option (List Proc)),
      waitLoopAux w targets k (n + 1) last ≠ Sum.inr none := by
  intro n
  induction n with
  | zero =>
    intro k last h
    rw [waitLoopAux] at h
    by_cases he : (stillAliveAt w (pollTime k) targets).isEmpty
    · simp only [he, if_true] at h
      cases h
    · simp only [he, if_false, Bool.false_eq_true, waitLoopAux] at h
      cases h
  | succ m ih =>
    intro k last h
    rw [waitLoopAux] at h
    by_cases he : (stillAliveAt w (pollTime k) targets).isEmpty
    · simp only [he, if_true] at h
      cases h
    · simp only [he, if_false, Bool.false_eq_true] at h
      exact ih (k + 1) _ h

theorem waitLoopAux_timeout (w : World) (targets : List Proc) :
    ∀ (n k : Nat) (last : Option (List Proc)) (still : List Proc),
      waitLoopAux w targets k (n + 1) last = Sum.inr (some still) →
      still = stillAliveAt w (pollTime (k + n)) targets ∧ still ≠ [] := by
  intro n
  induction n with
  | zero =>
    intro k last still h
    rw [waitLoopAux] at h
    by_cases he : (stillAliveAt w (pollTime k) targets).isEmpty
    · simp only [he, if_true] at h
      cases h
    · simp only [he, if_false, Bool.false_eq_true, waitLoopAux, Sum.inr.injEq,
        Option.some.injEq] at h
      refine ⟨by rw [← h, Nat.add_zero], ?_⟩
      rw [← h]
      exact (List.isEmpty_eq_false).mp (by simpa using he)
  | succ m ih =>
    intro k last still h
    rw [waitLoopAux] at h
    by_cases he : (stillAliveAt w (pollTime k) targets).isEmpty
    · simp only [he, if_true] at h
      cases h
    · simp only [he, if_false, Bool.false_eq_true] at h
      obtain ⟨h1, h2⟩ := ih (k + 1) _ still h
      have hkm : k + 1 + m = k + (m + 1) := by omega
      rw [hkm] at h1
      exact ⟨h1, h2⟩

theorem sum_map_pos_iff_any {α : Type} (f : α → Nat) (g : α → Bool)
    (hfg : ∀ x, 0 < f x ↔ g x = true) (l : List α) :
    0 < (l.map f).sum ↔ l.any g = true := by
  induction l with
  | nil => simp
  | cons a l ih =>
    simp only [List.map_cons, List.sum_cons, List.any_cons, Bool.or_eq_true,
      ← ih, ← hfg a]
    omega

theorem candidateCount_pos (bdata : List (String × String))
    (pr : DbFile × Option DbFile) :
    0 < candidateCount bdata pr ↔ candidateOk bdata pr = true := by
  unfold candidateCount candidateOk
  cases hs : pr.2 with
  | none => cases h1 : (_restore_single_db pr.1 bdata).1 <;> simp [h1]
  | some sib =>
    cases h1 : (_restore_single_db pr.1 bdata).1 <;>
      cases h2 : (_restore_single_db sib bdata).1 <;> simp [h1, h2]

theorem restoreKeysGo_of_absent (failsOn : String → Bool)
    (bdata : List (String × String)) (c : List (String × String)) :
    ∀ ks : List String, (∀ k ∈ ks, alookup bdata k = none) →
      restoreKeysGo failsOn bdata c ks = some c := by
  intro ks
  induction ks with
  | nil => intro _; rfl
  | cons k ks ih =>
    intro h
    rw [restoreKeysGo, h k (List.mem_cons_self k ks)]
    exact ih fun x hx => h x (List.mem_cons_of_mem k hx)

theorem restore_single_db_of_absent (f : DbFile)
    (bdata : List (String × String))
    (h : ∀ k ∈ KEYS_TO_BACKUP, alookup bdata k = none) :
    _restore_single_db f bdata = (f.present && f.connOk, f.contents) := by
  unfold _restore_single_db
  cases hp : f.present with
  | false => simp
  | true =>
    cases hc : f.connOk with
    | false => simp
    | true =>
      simp [restoreKeysGo_of_absent f.failsOn bdata f.contents KEYS_TO_BACKUP h]

theorem alookup_append_isSome (l1 l2 : List (String × String)) (k : String) :
    (alookup (l1 ++ l2) k).isSome =
      ((alookup l1 k).isSome || (alookup l2 k).isSome) := by
  induction l1 with
  | nil => simp [alookup]
  | cons kv rest ih =>
    by_cases h : kv.1 == k
    · simp [alookup, h]
    · simp [alookup, h, ih]

theorem alookup_filterMap_isSome (db : String → Option String) (k : String) :
    ∀ keys : List String,
      (alookup (keys.filterMap (fun key => (db key).map (fun v => (key, v))))
          k).isSome = true ↔
        (k ∈ keys ∧ (db k).isSome = true) := by
  intro keys
  induction keys with
  | nil => simp [alookup]
  | cons key keys ih =>
    cases hdb : db key with
    | none =>
      have hstep :
          List.filterMap (fun key => (db key).map (fun v => (key, v)))
              (key :: keys)
            = List.filterMap (fun key => (db key).map (fun v => (key, v)))
                keys := by
        rw [List.filterMap_cons]
        simp [hdb]
      rw [hstep, ih]
      constructor
      · rintro ⟨hm, hs⟩
        exact ⟨List.mem_cons_of_mem _ hm, hs⟩
      · rintro ⟨hm, hs⟩
        rcases List.mem_cons.mp hm with h1 | h1
        · subst h1
          rw [hdb] at hs
          cases hs
        · exact ⟨h1, hs⟩
    | some v =>
      have hstep :
          List.filterMap (fun key => (db key).map (fun v => (key, v)))
              (key :: keys)
            = (key, v) ::
                List.filterMap (fun key => (db key).map (fun v => (key, v)))
                  keys := by
        rw [List.filterMap_cons]
        simp [hdb]
      rw [hstep]
      by_cases hk : key = k
      · subst hk
        simp [alookup, hdb]
      · rw [alookup, if_neg (by simp [beq_iff_eq]; exact hk), ih]
        constructor
        · rintro ⟨hm, hs⟩
          exact ⟨List.mem_cons_of_mem _ hm, hs⟩
        · rintro ⟨hm, hs⟩
          rcases List.mem_cons.mp hm with h1 | h1
          · exact absurd h1.symm hk
          · exact ⟨h1, hs⟩

theorem alookup_meta_isSome (email now k : String) :
    (alookup [("account_email", email), ("backup_time", now)] k).isSome = true
      ↔ (k = "account_email" ∨ k = "backup_time") := by
  by_cases h1 : k = "account_email"
  · subst h1
    simp [alookup]
  · by_cases h2 : k = "backup_time"
    · subst h2
      simp [alookup]
    · have hc1 : (("account_email" : String) == k) = false := by
        rw [beq_eq_false_iff_ne]
        exact fun h => h1 h.symm
      have hc2 : (("backup_time" : String) == k) = false := by
        rw [beq_eq_false_iff_ne]
        exact fun h => h2 h.symm
      simp [alookup, hc1, hc2, h1, h2]

/-- Claim C3: no process of the termination set has the pid of the
caller, and no process of the termination set has a non-empty
executable path lying under (lowercase-prefixed by) the installation
directory of the caller, even when it matches the platform locator
predicate. -/
theorem scan_excludes_self (w : World) (p : Proc) (hp : p ∈ scanTargets w) :
    p.pid ≠ w.ownPid ∧
    ¬(p.exe ≠ "" ∧ pyLower w.ownDir <+: pyLower p.exe) := by
  obtain ⟨hmem, hcond⟩ := List.mem_filter.mp hp
  simp only [Bool.and_eq_true] at hcond
  obtain ⟨⟨⟨hr, hpid⟩, hdir⟩, hmatch⟩ := hcond
  refine ⟨bne_iff_ne.mp hpid, ?_⟩
  rintro ⟨hne, hpre⟩
  have hc : listContains (pyLower p.exe) (pyLower w.ownDir) = true :=
    listContains_of_prefix hpre
  have hie : (pyLower p.exe).isEmpty = false :=
    List.isEmpty_eq_false.mpr fun h0 => hne ((pyLower_eq_nil_iff _).mp h0)
  rw [hie, hc] at hdir
  simp at hdir

/-- Witness for C3 at a concrete world whose scan yields the target
process. -/
theorem scan_excludes_self_witness :
    procTarget.pid ≠ wScan.ownPid ∧
    ¬(procTarget.exe ≠ "" ∧
        pyLower wScan.ownDir <+: pyLower procTarget.exe) :=
  scan_excludes_self wScan procTarget (by decide)

/-- Claim C4: a close run whose scan yields an empty termination set
returns success immediately, sending no SIGTERM and no SIGKILL. -/
theorem close_noop_success (w : World) (timeout : Int) (force_kill : Bool)
    (h : scanTargets w = []) :
    close_antigravity w timeout force_kill = ⟨true, [], [], [], false⟩ := by
  simp [close_antigravity, h]

/-- Witness for C4: a world whose only process does not match. -/
theorem close_noop_success_witness :
    close_antigravity wNoTarget 10 true = ⟨true, [], [], [], false⟩ :=
  close_noop_success wNoTarget 10 true (by decide)

/-- Claim C5: the Linux locator predicate holds iff the lowercase name
equals "antigravity", or the lowercased executable path contains the
path segment "/antigravity/", or it ends with "/antigravity"; a decoy
whose name merely contains the app name as a proper substring is
excluded, and a process with the exact name is included. -/
theorem linux_locator_iff :
    (∀ name exe : String,
      is_antigravity_linux (pyLower name) (pyLower exe) = true ↔
        (pyLower name = "antigravity".toList ∨
         "/antigravity/".toList <:+: pyLower exe ∨
         "/antigravity".toList <:+ pyLower exe)) ∧
    is_antigravity_linux (pyLower "Antigravity2")
      (pyLower "/usr/bin/antigravity2") = false ∧
    is_antigravity_linux (pyLower "antigravity") (pyLower "") = true := by
  refine ⟨?_, by decide, by decide⟩
  intro name exe
  unfold is_antigravity_linux
  simp [listContains_iff, listEndsWith_iff, Bool.or_eq_true, beq_iff_eq,
    or_assoc]

/-- Counterexample to C6 as stated: with use_uri = false and a failing
executable-path fallback (no resolved path, no bare command), the call
returns failure without ever dispatching the URI mechanism, although
the URI open would have succeeded (envNoExe.uriOk = true): no retry
with the URI path forced on happens. -/
theorem start_uri_not_forced_cex :
    (start_antigravity envNoExe false).1 = false ∧
    LaunchAttempt.uri ∉ (start_antigravity envNoExe false).2 ∧
    envNoExe.uriOk = true := by decide

/-- Claim C6 (amended): when an exception escapes the launch attempt
(the Popen on the resolved executable raises) and URI had been
preferred but failed, start retries exactly once with the URI path
forced OFF (use_uri = false), prefixing the failed URI and Popen
attempts; with use_uri = false no retry happens at all and the call
returns failure after the single Popen attempt. -/
theorem start_retry_flag_flip (env : StartEnv) (h1 : env.uriOk = false)
    (h2 : env.exeFound = true) (h3 : env.popenRaises = true) :
    start_antigravity env true =
      ((start_antigravity env false).1,
        LaunchAttempt.uri :: LaunchAttempt.exePopen ::
          (start_antigravity env false).2) ∧
    start_antigravity env false = (false, [LaunchAttempt.exePopen]) := by
  simp [start_antigravity, h1, h2, h3]

/-- Witness for the amended C6. -/
theorem start_retry_flag_flip_witness :
    start_antigravity envRaise true =
      ((start_antigravity envRaise false).1,
        LaunchAttempt.uri :: LaunchAttempt.exePopen ::
          (start_antigravity envRaise false).2) ∧
    start_antigravity envRaise false = (false, [LaunchAttempt.exePopen]) :=
  start_retry_flag_flip envRaise rfl rfl rfl

/-- Claim C7: with an existing, parseable backup file and a non-empty
database path list, restore_account returns true iff some candidate
database (a primary or its existing backup sibling) was successfully
updated, and the final contents of every candidate are those of its
own independent restore attempt (a failing candidate never prevents
the attempts on the others). -/
theorem restore_success_iff (env : RestoreEnv) (bdata : List (String × String))
    (h1 : env.fileExists = true) (h2 : env.parsed = some bdata)
    (h3 : env.paths ≠ []) :
    ((restore_account env).1 = true ↔
      env.paths.any (candidateOk bdata) = true) ∧
    (restore_account env).2 = env.paths.map (candidateContents bdata) := by
  have hie : env.paths.isEmpty = false := List.isEmpty_eq_false.mpr h3
  simp only [restore_account, h1, h2, hie, Bool.not_true, Bool.false_eq_true,
    if_false]
  refine ⟨?_, trivial⟩
  rw [decide_eq_true_iff]
  exact sum_map_pos_iff_any (candidateCount bdata) (candidateOk bdata)
    (candidateCount_pos bdata) env.paths

/-- Witness for C7. -/
theorem restore_success_iff_witness :
    ((restore_account envRestore).1 = true ↔
      envRestore.paths.any (candidateOk bdataOne) = true) ∧
    (restore_account envRestore).2 =
      envRestore.paths.map (candidateContents bdataOne) :=
  restore_success_iff envRestore bdataOne rfl rfl (by simp [envRestore])

/-- Claim C8: a key appears in the backup document iff it is a
canonical key present in the database, or one of the two metadata
fields; absent canonical keys are omitted and nothing else ever
appears. -/
theorem backup_keys_exact (db : String → Option String)
    (email now key : String) :
    (alookup (backup_data_map db email now) key).isSome = true ↔
      ((key ∈ KEYS_TO_BACKUP ∧ (db key).isSome = true) ∨
        key = "account_email" ∨ key = "backup_time") := by
  unfold backup_data_map
  rw [alookup_append_isSome, Bool.or_eq_true,
    alookup_filterMap_isSome, alookup_meta_isSome]

/-- Claim C9: with a non-positive timeout and a non-empty termination
set, the wait-loop body never runs, reading still_running raises the
NameError caught at the operation boundary, and close returns failure
without sending any SIGKILL, whatever force_kill is. -/
theorem close_nonpositive_timeout (w : World) (timeout : Int)
    (force_kill : Bool) (hT : timeout ≤ 0) (hne : scanTargets w ≠ []) :
    (close_antigravity w timeout force_kill).result = false ∧
    (close_antigravity w timeout force_kill).killSignals = [] ∧
    (close_antigravity w timeout force_kill).raised = true := by
  have h0 : pollsNeeded timeout = 0 := by
    unfold pollsNeeded
    omega
  have hwl : waitLoop w (scanTargets w) timeout = Sum.inr none := by
    rw [waitLoop, h0]
    rfl
  have hie : (scanTargets w).isEmpty = false := List.isEmpty_eq_false.mpr hne
  simp [close_antigravity, hie, hwl]

/-- Witness for C9. -/
theorem close_nonpositive_timeout_witness :
    (close_antigravity wHang 0 true).result = false ∧
    (close_antigravity wHang 0 true).killSignals = [] ∧
    (close_antigravity wHang 0 true).raised = true :=
  close_nonpositive_timeout wHang 0 true (by decide) (by decide)

/-- Claim C10: a parseable backup document containing none of the
canonical keys restores no key at all, yet every existing reachable
database counts as successfully updated, so restore_account returns
true while every candidate database stays entirely unchanged. -/
theorem restore_metadata_only (env : RestoreEnv)
    (bdata : List (String × String)) (h1 : env.fileExists = true)
    (h2 : env.parsed = some bdata)
    (hkeys : KEYS_TO_BACKUP.all (absentIn bdata) = true)
    (hreach : env.paths.any reachablePrimary = true) :
    (restore_account env).1 = true ∧
    (restore_account env).2 = env.paths.map unchangedPair := by
  have habs : ∀ k ∈ KEYS_TO_BACKUP, alookup bdata k = none := by
    intro k hk
    have hb := List.all_eq_true.mp hkeys k hk
    unfold absentIn at hb
    exact Option.isNone_iff_eq_none.mp hb
  have hsingle : ∀ f : DbFile,
      _restore_single_db f bdata = (f.present && f.connOk, f.contents) :=
    fun f => restore_single_db_of_absent f bdata habs
  have h3 : env.paths ≠ [] := by
    obtain ⟨x, hx, _⟩ := List.any_eq_true.mp hreach
    exact List.ne_nil_of_mem hx
  have hie : env.paths.isEmpty = false := List.isEmpty_eq_false.mpr h3
  simp only [restore_account, h1, h2, hie, Bool.not_true, Bool.false_eq_true,
    if_false]
  constructor
  · rw [decide_eq_true_iff,
      sum_map_pos_iff_any (candidateCount bdata) (candidateOk bdata)
        (candidateCount_pos bdata) env.paths]
    obtain ⟨pr, hpr, hok⟩ := List.any_eq_true.mp hreach
    refine List.any_eq_true.mpr ⟨pr, hpr, ?_⟩
    unfold candidateOk
    rw [hsingle pr.1]
    unfold reachablePrimary at hok
    simp [hok]
  · apply List.map_congr_left
    intro pr _
    unfold candidateContents unchangedPair
    rw [hsingle pr.1]
    cases pr.2 <;> simp [hsingle]

/-- Witness for C10. -/
theorem restore_metadata_only_witness :
    (restore_account envMetaOnly).1 = true ∧
    (restore_account envMetaOnly).2 = envMetaOnly.paths.map unchangedPair :=
  restore_metadata_only envMetaOnly bdataMeta rfl rfl (by decide) (by decide)

/-- Claim C1: when the wait loop times out with a non-empty
still_running list, close with force_kill sends SIGKILL to exactly the
processes of the termination set still alive at the loop-exit tick,
waits the 1-second settle delay (4 ticks), re-polls, and returns
success iff no process of the set remains alive then, naming the
still-alive processes on failure.  (Since a dead process never comes
back, polling still_running and polling the whole termination set
agree at and after the loop exit.) -/
theorem close_force_kill_escalation (w : World) (timeout : Int)
    (still : List Proc)
    (hw : waitLoop w (scanTargets w) timeout = Sum.inr (some still)) :
    (close_antigravity w timeout true).killSignals =
      (stillAliveAt w (endTime timeout) (scanTargets w)).map Proc.pid ∧
    ((close_antigravity w timeout true).result = true ↔
      stillAliveAt w (endTime timeout + 4) (scanTargets w) = []) ∧
    (close_antigravity w timeout true).unkillable =
      stillAliveAt w (endTime timeout + 4) (scanTargets w) := by
  obtain ⟨n, hn⟩ : ∃ n, pollsNeeded timeout = n + 1 := by
    cases hpn : pollsNeeded timeout with
    | zero =>
      rw [waitLoop, hpn, waitLoopAux] at hw
      cases hw
    | succ m => exact ⟨m, rfl⟩
  have hw' := hw
  rw [waitLoop, hn] at hw'
  obtain ⟨hstill, hne⟩ :=
    waitLoopAux_timeout w (scanTargets w) n 0 none still hw'
  rw [Nat.zero_add] at hstill
  have hpoll_end : pollTime n ≤ endTime timeout := by
    unfold pollTime endTime
    rw [hn]
    push_cast
    omega
  have hpoll_fin : pollTime n ≤ endTime timeout + 4 := by omega
  have hkilled :
      stillAliveAt w (endTime timeout) still =
        stillAliveAt w (endTime timeout) (scanTargets w) := by
    rw [hstill, stillAliveAt_idem w hpoll_end]
  have hfinal :
      stillAliveAt w (endTime timeout + 4) still =
        stillAliveAt w (endTime timeout + 4) (scanTargets w) := by
    rw [hstill, stillAliveAt_idem w hpoll_fin]
  have hTne : (scanTargets w).isEmpty = false := by
    rw [List.isEmpty_eq_false]
    intro h0
    apply hne
    rw [hstill, h0]
    rfl
  have hsne : still.isEmpty = false := List.isEmpty_eq_false.mpr hne
  by_cases hfc : stillAliveAt w (endTime timeout + 4) (scanTargets w) = []
  · have hfc' : (stillAliveAt w (endTime timeout + 4) still).isEmpty = true := by
      rw [hfinal, hfc]
      rfl
    simp [close_antigravity, hTne, hw, hsne, hfc', hkilled, hfc]
  · have hfc' : (stillAliveAt w (endTime timeout + 4) still).isEmpty = false := by
      rw [hfinal]
      exact List.isEmpty_eq_false.mpr hfc
    simp [close_antigravity, hTne, hw, hsne, hfc', hkilled, hfinal, hfc]

/-- Witness for C1: a world whose target process never exits. -/
theorem close_force_kill_escalation_witness :
    (close_antigravity wStubborn 1 true).killSignals =
      (stillAliveAt wStubborn (endTime 1) (scanTargets wStubborn)).map
        Proc.pid ∧
    ((close_antigravity wStubborn 1 true).result = true ↔
      stillAliveAt wStubborn (endTime 1 + 4) (scanTargets wStubborn) = []) ∧
    (close_antigravity wStubborn 1 true).unkillable =
      stillAliveAt wStubborn (endTime 1 + 4) (scanTargets wStubborn) :=
  close_force_kill_escalation wStubborn 1 [procTarget] (by decide)

/-- Counterexample to C2 as stated: in wLate the only process of the
termination set stops being alive at tick 3, strictly before the
1-second timeout (tick 4), yet close with force_kill disabled returns
failure: the last liveness poll happened at tick 2, the loop exits at
tick 4 with the stale still_running of tick 2, and the disabled
escalation reports failure without re-polling. -/
theorem close_convergence_cex :
    (scanTargets wLate).all (diesBefore wLate 1) = true ∧
    (close_antigravity wLate 1 false).result = false := by decide

/-- Claim C2 (amended): for every run with a positive timeout in which
every process of the termination set stops being alive before the
timeout elapses, close never sends SIGKILL to any process (whatever
force_kill is), and, when force_kill is enabled, returns success.
(With force_kill disabled, a process dying between the last poll and
the timeout makes close return failure, as the counterexample shows.) -/
theorem close_graceful_convergence (w : World) (timeout : Int) (fk : Bool)
    (hT : 0 < timeout)
    (hd : (scanTargets w).all (diesBefore w timeout) = true) :
    (close_antigravity w timeout fk).killSignals = [] ∧
    (close_antigravity w timeout true).result = true := by
  have hdead : ∀ t : Int, 4 * timeout ≤ t →
      ∀ p ∈ scanTargets w, aliveAt w t p = false := by
    intro t ht p hp
    have hb := List.all_eq_true.mp hd p hp
    unfold diesBefore at hb
    cases hdp : w.dies p.pid with
    | none =>
      rw [hdp] at hb
      cases hb
    | some d =>
      rw [hdp, decide_eq_true_iff] at hb
      exact aliveAt_eq_false w p hdp (by omega)
  have hend : endTime timeout = 4 * timeout := endTime_eq timeout (by omega)
  by_cases hie : (scanTargets w).isEmpty
  · constructor <;> simp [close_antigravity, hie]
  · have hie' : (scanTargets w).isEmpty = false := by
      simpa using hie
    cases hwl : waitLoop w (scanTargets w) timeout with
    | inl u =>
      constructor <;> simp [close_antigravity, hie', hwl]
    | inr o =>
      cases o with
      | none =>
        exfalso
        obtain ⟨n, hn⟩ : ∃ n, pollsNeeded timeout = n + 1 := by
          refine ⟨pollsNeeded timeout - 1, ?_⟩
          unfold pollsNeeded
          omega
        rw [waitLoop, hn] at hwl
        exact waitLoopAux_ne_none w (scanTargets w) n 0 none hwl
      | some still =>
        obtain ⟨n, hn⟩ : ∃ n, pollsNeeded timeout = n + 1 := by
          refine ⟨pollsNeeded timeout - 1, ?_⟩
          unfold pollsNeeded
          omega
        have hw' := hwl
        rw [waitLoop, hn] at hw'
        obtain ⟨hstill, hne⟩ :=
          waitLoopAux_timeout w (scanTargets w) n 0 none still hw'
        rw [Nat.zero_add] at hstill
        have hsub : ∀ p ∈ still, p ∈ scanTargets w := by
          intro p hp
          rw [hstill] at hp
          exact mem_of_mem_stillAliveAt hp
        have hkill : stillAliveAt w (endTime timeout) still = [] :=
          stillAliveAt_eq_nil fun p hp =>
            hdead _ (by rw [hend]) p (hsub p hp)
        have hfin : stillAliveAt w (endTime timeout + 4) still = [] :=
          stillAliveAt_eq_nil fun p hp =>
            hdead _ (by rw [hend]; omega) p (hsub p hp)
        have hsne : still.isEmpty = false := List.isEmpty_eq_false.mpr hne
        constructor
        · cases fk <;>
            simp [close_antigravity, hie', hwl, hsne, hkill, hfin]
        · simp [close_antigravity, hie', hwl, hsne, hkill, hfin]

/-- Witness for the amended C2: the target process dies at tick 2,
well before the 2-second timeout. -/
theorem close_graceful_convergence_witness :
    (close_antigravity wQuick 2 false).killSignals = [] ∧
    (close_antigravity wQuick 2 true).result = true :=
  close_graceful_convergence wQuick 2 false (by decide) (by decide)

